import Mathlib

/-!
# Verification of the ASN.1 BER decoder (package `asn1`, file `decode.go`)

This file gives a shallow embedding of the decoder in `src/asn1/decode.go`.
The byte source (`io.Reader` backed by `bytes.Reader` in the tests) is
modelled as a `List Nat` of octets (each `< 256`); every reading function
returns its result together with the remaining source, mirroring the mutable
cursor of the Go reader.  Machine integers (`int`, `int64`) are modelled as
`Nat` accumulators reduced `% 2^64`, with a signed reinterpretation
(`toSigned64`) where Go reads the value as a signed 64-bit integer.
Recursion of the composite decoder (`decodeField` / `decodeSequenceSlice`)
is made structural with a fuel parameter; `Err.outOfFuel` is a modelling
artifact that never occurs once the fuel exceeds the number of decoded
elements plus one, as the theorems below make explicit.
-/

/-- Error kinds of the decoder.  `syntaxError` and `structuralError` embed the
Go types `SyntaxError` and `StructuralError` (their formatted messages are
simplified to fixed strings); `eoc` is the internal `EOC` sentinel error;
`ioEOF` and `ioUnexpectedEOF` are `io.EOF` and `io.ErrUnexpectedEOF`;
`panicSliceBounds` models the Go runtime panic raised by slicing the 10-byte
scratch buffer past its capacity; `outOfFuel` is the fuel artifact. -/
inductive Err where
  | syntaxError (msg : String)
  | structuralError (msg : String)
  | eoc
  | ioEOF
  | ioUnexpectedEOF
  | panicSliceBounds
  | outOfFuel
deriving DecidableEq, Repr

/-- Does an error have Go type `SyntaxError`? -/
def Err.isSyntaxErr : Err → Bool
  | .syntaxError _ => true
  | _ => false

/-- Does an error have Go type `StructuralError`? -/
def Err.isStructuralErr : Err → Bool
  | .structuralError _ => true
  | _ => false

/-- Is an error one of the propagated I/O read failures? -/
def Err.isIOErr : Err → Bool
  | .ioEOF => true
  | .ioUnexpectedEOF => true
  | _ => false

/-- The shape of the Go value decoded into, as seen through `reflect`:
the target kinds the decoder distinguishes (`decode.go` dispatches on
`v.Kind()` and on `v.Type() == rawValueType`). -/
inductive GoType where
  | bool
  | int
  | int8
  | int16
  | int32
  | int64
  | uint8
  | byteSlice
  | seqOf (elem : GoType)
  | raw
deriving DecidableEq, Repr

/-- Decoded program values. -/
inductive GoValue where
  | boolV (b : Bool)
  | intV (t : GoType) (v : Int)
  | bytesV (bs : List Nat)
  | seqV (vs : List GoValue)
  | rawV (cls tag : Nat) (constructed : Bool) (bytes : List Nat)
deriving Repr

/-- A decoding computation: takes the byte source, returns result plus the
remaining source (the reader cursor after the call, on success or failure). -/
abbrev DecM (α : Type) : Type := List Nat → Except Err α × List Nat

/-- Modelled from the spec: the class constant `ClassUniversal` lives in a
repository file that is not under `src/` (spec section 6 fixes its value). -/
def ClassUniversal : Nat := 0

/-- Modelled from the spec: universal tag number of BOOLEAN (spec section 6). -/
def TagBoolean : Nat := 1

/-- Modelled from the spec: universal tag number of INTEGER (spec section 6). -/
def TagInteger : Nat := 2

/-- Modelled from the spec: universal tag number of OCTET STRING (spec section 6). -/
def TagOctetString : Nat := 4

/-- Modelled from the spec: universal tag number of ENUMERATED (spec section 6). -/
def TagEnumerated : Nat := 10

/-- Modelled from the spec: universal tag number of SEQUENCE (spec section 6). -/
def TagSequence : Nat := 16

/-- `io.ReadFull` on a `bytes.Reader`: reads exactly `n` bytes; `io.EOF` if no
byte is available (and `n > 0`), `io.ErrUnexpectedEOF` on a partial read. -/
def readFull (n : Nat) (s : List Nat) : Except Err (List Nat) × List Nat :=
  if n = 0 then (.ok [], s)
  else if s.length = 0 then (.error .ioEOF, [])
  else if s.length < n then (.error .ioUnexpectedEOF, [])
  else (.ok (s.take n), s.drop n)

/-- 2^64, the modulus of the 64-bit accumulators. -/
def two64 : Nat := 18446744073709551616

/-- Reads a `Nat` accumulator as a signed 64-bit integer (two's complement). -/
def toSigned64 (n : Nat) : Int :=
  if n < 9223372036854775808 then (n : Int) else (n : Int) - (two64 : Int)

/-- The long-form tag loop of `decodeType` (`decode.go` lines 151-162):
accumulate `tag = tag<<7 | cur&0x1f`, continue while bit 7 of the current
octet is set, reading the next octet from the source. -/
def tagLoop : Nat → Nat → List Nat → Except Err Nat × List Nat
  | tag, cur, s =>
    let tag2 := (tag <<< 7 ||| (cur &&& 0x1f)) % two64
    if cur &&& 0x80 = 0 then (.ok tag2, s)
    else
      match s with
      | [] => (.error .ioEOF, [])
      | x :: rest => tagLoop tag2 x rest

/-- `decodeType` (`decode.go` lines 129-165): parse the identifier octets into
`(class, tag, constructed)`. -/
def decodeType : List Nat → Except Err (Nat × Nat × Bool) × List Nat
  | [] => (.error .ioEOF, [])
  | b :: rest =>
    let cls := b >>> 6
    let constructed := b &&& 0x20 == 0x20
    if b &&& 0x1f < 0x1f then (.ok (cls, b &&& 0x1f, constructed), rest)
    else
      match rest with
      | [] => (.error .ioEOF, [])
      | c :: rest2 =>
        if c &&& 0x7f = 0 then (.error (.syntaxError "long-form tag"), rest2)
        else
          match tagLoop 0 c rest2 with
          | (.error e, s2) => (.error e, s2)
          | (.ok tag, s2) => (.ok (cls, tag, constructed), s2)

/-- `decodeLength` (`decode.go` lines 208-233).  The Go code slices its 10-byte
scratch buffer as `dec.buf[0:n]`; a declared long-form width above 10 makes
that slicing panic at runtime, modelled by `Err.panicSliceBounds`. -/
def decodeLength : List Nat → Except Err (Nat × Bool) × List Nat
  | [] => (.error .ioEOF, [])
  | c :: rest =>
    if c < 0x80 then (.ok (c, false), rest)
    else if c = 0x80 then (.ok (0, true), rest)
    else if c = 0xff then (.error (.syntaxError "long-form length"), rest)
    else
      let n := c &&& 0x7f
      if 10 < n then (.error .panicSliceBounds, rest)
      else
        match readFull n rest with
        | (.error e, s2) => (.error e, s2)
        | (.ok bs, s2) =>
          (.ok (bs.foldl (fun len b => (len <<< 8 ||| b) % two64) 0, false), s2)

/-- The scanning loop of the indefinite branch of `decodeContent`
(`decode.go` lines 182-197): grow the buffer one octet at a time until its
last two octets are both zero, then strip those two octets. -/
def indefLoop : List Nat → List Nat → Except Err (List Nat) × List Nat
  | b, s =>
    if b.getD (b.length - 2) 1 = 0 ∧ b.getD (b.length - 1) 1 = 0 then
      (.ok (b.take (b.length - 2)), s)
    else
      match s with
      | [] => (.error .ioEOF, [])
      | x :: rest => indefLoop (b ++ [x]) rest

/-- `decodeContent` (`decode.go` lines 175-206): definite case reads exactly
`len` octets with `io.ReadFull`; indefinite case reads two octets and then
scans for the `0x00 0x00` terminator. -/
def decodeContent (len : Nat) (indefinite : Bool) : DecM (List Nat) := fun s =>
  if indefinite then
    match readFull 2 s with
    | (.error e, s2) => (.error e, s2)
    | (.ok b, s2) => indefLoop b s2
  else readFull len s

/-- `decodeLengthAndContent` (`decode.go` lines 167-173). -/
def decodeLengthAndContent : DecM (List Nat) := fun s =>
  match decodeLength s with
  | (.error e, s2) => (.error e, s2)
  | (.ok (len, indefinite), s2) => decodeContent len indefinite s2

/-- Is the target one of the signed-integer kinds
(`reflect.Int <= v.Kind() && v.Kind() <= reflect.Int64`)? -/
def isIntKind : GoType → Bool
  | .int => true
  | .int8 => true
  | .int16 => true
  | .int32 => true
  | .int64 => true
  | _ => false

/-- Is the target of `reflect.Slice` kind (both `[]byte` and `[]T`)? -/
def isSliceKind : GoType → Bool
  | .byteSlice => true
  | .seqOf _ => true
  | _ => false

/-- Is the target a byte slice (`reflect.Slice` with `Uint8` elements)? -/
def isByteSliceKind : GoType → Bool
  | .byteSlice => true
  | _ => false

/-- `checkTag` (`decode.go` lines 235-259): accept only the universal-class
tag matching the requested target kind together with the right
primitive/constructed form; otherwise `StructuralError`. -/
def checkTag (cls tag : Nat) (constructed : Bool) (t : GoType) : Except Err Unit :=
  let ok : Bool :=
    if cls = ClassUniversal then
      if tag = TagBoolean then !constructed && decide (t = GoType.bool)
      else if tag = TagOctetString then !constructed && isByteSliceKind t
      else if tag = TagInteger ∨ tag = TagEnumerated then !constructed && isIntKind t
      else if tag = TagSequence then constructed && isSliceKind t
      else false
    else false
  if ok then .ok () else .error (.structuralError "tag mismatch")

/-- `decodeBool` (`decode.go` lines 261-267). -/
def decodeBool (b : List Nat) : Except Err GoValue :=
  if b.length ≠ 1 then .error (.syntaxError "booleans must be only one byte")
  else .ok (.boolV (b.headD 0 != 0))

/-- `decodeByteSlice` (`decode.go` lines 269-272). -/
def decodeByteSlice (b : List Nat) : Except Err GoValue :=
  .ok (.bytesV b)

/-- The bit width of the Go integer target (`int` is 64-bit here). -/
def intWidth : GoType → Nat
  | .int8 => 8
  | .int16 => 16
  | .int32 => 32
  | _ => 64

/-- `reflect.Value.OverflowInt`: does the signed 64-bit value held in the
accumulator fail to round-trip through the target's width? -/
def overflowInt (t : GoType) (i : Nat) : Bool :=
  let w := intWidth t
  if -((2 : Int) ^ (w - 1)) ≤ toSigned64 i ∧ toSigned64 i < (2 : Int) ^ (w - 1) then false
  else true

/-- `decodeInteger` (`decode.go` lines 274-291): require at least one content
octet, accumulate `i = i<<8 + b` in a signed 64-bit accumulator (no sign
extension from the content width), and reject values that overflow the
target width. -/
def decodeInteger (b : List Nat) (t : GoType) : Except Err GoValue :=
  if b.length = 0 then .error (.syntaxError "integer must have at least one byte of content")
  else
    let i : Nat := b.foldl (fun acc x => (acc <<< 8 + x) % two64) 0
    if overflowInt t i then .error (.structuralError "integer overflow")
    else .ok (.intV t (toSigned64 i))

/-- `decodePrimitive` (`decode.go` lines 111-127): read length and content,
then dispatch on the target kind. -/
def decodePrimitive (t : GoType) : DecM GoValue := fun s =>
  match decodeLengthAndContent s with
  | (.error e, s2) => (.error e, s2)
  | (.ok b, s2) =>
    match t with
    | .byteSlice => (decodeByteSlice b, s2)
    | .bool => (decodeBool b, s2)
    | .int => (decodeInteger b .int, s2)
    | .int8 => (decodeInteger b .int8, s2)
    | .int16 => (decodeInteger b .int16, s2)
    | .int32 => (decodeInteger b .int32, s2)
    | .int64 => (decodeInteger b .int64, s2)
    | _ => (.error (.structuralError "Unsupported Type"), s2)

/-- The element loop of `decodeSequenceSlice` (`decode.go` lines 97-107):
decode elements with the given element decoder `df` until it fails; `EOC`
and `io.EOF` end the loop successfully, any other failure aborts. -/
def seqLoop (df : GoType → DecM GoValue) (t : GoType) : Nat → List GoValue → DecM (List GoValue)
  | 0, _ => fun s => (.error .outOfFuel, s)
  | g + 1, acc => fun s =>
    match df t s with
    | (.ok v, s2) => seqLoop df t g (acc ++ [v]) s2
    | (.error e, s2) =>
      if e = .eoc ∨ e = .ioEOF then (.ok acc, s2)
      else (.error e, s2)

/-- `decodeSequenceSlice` (`decode.go` lines 78-109).  In the definite case
the content bytes are read first and the element loop runs on them as a
substituted source; the `defer` that restores `dec.r` on every exit path is
embedded by returning the outer remaining source `s2` for both outcomes of
the loop. -/
def decodeSequenceSlice (df : GoType → DecM GoValue) (fuel : Nat) (elemT : GoType) :
    DecM GoValue := fun s =>
  match decodeLength s with
  | (.error e, s1) => (.error e, s1)
  | (.ok (len, indefinite), s1) =>
    if indefinite then
      match seqLoop df elemT fuel [] s1 with
      | (.ok vs, s2) => (.ok (.seqV vs), s2)
      | (.error e, s2) => (.error e, s2)
    else
      match decodeContent len false s1 with
      | (.error e, s2) => (.error e, s2)
      | (.ok b, s2) =>
        match seqLoop df elemT fuel [] b with
        | (.ok vs, _) => (.ok (.seqV vs), s2)
        | (.error e, _) => (.error e, s2)

/-- `decodeConstructed` (`decode.go` lines 70-76): only `reflect.Slice`
targets are supported. -/
def decodeConstructed (df : GoType → DecM GoValue) (fuel : Nat) (t : GoType) :
    DecM GoValue := fun s =>
  match t with
  | .seqOf e => decodeSequenceSlice df fuel e s
  | .byteSlice => decodeSequenceSlice df fuel .uint8 s
  | _ => (.error (.structuralError "Unsupported Type"), s)

/-- `decodeField` (`decode.go` lines 33-68), the body of `Decode`: parse the
identifier, consume an EOC marker into the `EOC` sentinel error, fill a
`RawValue` target directly, otherwise check the tag and dispatch to the
constructed or primitive decoder.  `fuel` bounds the recursion depth and
the number of loop iterations; with fuel larger than the number of decoded
elements the `outOfFuel` artifact never occurs. -/
def decodeField : Nat → GoType → DecM GoValue
  | 0, _ => fun s => (.error .outOfFuel, s)
  | f + 1, t => fun s =>
    match decodeType s with
    | (.error e, s1) => (.error e, s1)
    | (.ok (cls, tag, constructed), s1) =>
      if cls = 0 ∧ tag = 0 then
        match s1 with
        | [] => (.error .ioEOF, [])
        | l :: s2 =>
          if l ≠ 0 then (.error (.syntaxError "End-Of-Content tag with non-zero length byte"), s2)
          else (.error .eoc, s2)
      else if t = GoType.raw then
        match decodeLengthAndContent s1 with
        | (.error e, s2) => (.error e, s2)
        | (.ok b, s2) => (.ok (.rawV cls tag constructed b), s2)
      else
        match checkTag cls tag constructed t with
        | .error e => (.error e, s1)
        | .ok _ =>
          if constructed then decodeConstructed (decodeField f) f t s1
          else decodePrimitive t s1


/-- The plain big-endian value of a list of octets (the mathematical reading
used to state the arithmetic claims). -/
def beValue (b : List Nat) : Nat :=
  b.foldl (fun a x => a * 256 + x) 0

/-- Wire encoding of one BOOLEAN element (`0x01 0x01 v`). -/
def encBool (b : Bool) : List Nat :=
  [0x01, 0x01, if b then 0x01 else 0x00]

/-- Wire encoding of a list of BOOLEAN elements, concatenated. -/
def encBools (bs : List Bool) : List Nat :=
  (bs.map encBool).flatten

/-- The decoded values corresponding to a list of booleans. -/
def boolVals (bs : List Bool) : List GoValue :=
  bs.map GoValue.boolV

/-- Definite-length encoding of `SEQUENCE OF BOOLEAN` (single length octet). -/
def defEnc (bs : List Bool) : List Nat :=
  0x30 :: (3 * bs.length) :: encBools bs

/-- Indefinite-length (EOC-terminated) encoding of `SEQUENCE OF BOOLEAN`. -/
def indefEnc (bs : List Bool) : List Nat :=
  0x30 :: 0x80 :: (encBools bs ++ [0x00, 0x00])

theorem encBools_cons (b : Bool) (bs : List Bool) :
    encBools (b :: bs) = encBool b ++ encBools bs := by
  simp [encBools]

theorem encBools_length (bs : List Bool) : (encBools bs).length = 3 * bs.length := by
  induction bs with
  | nil => simp [encBools]
  | cons b bs ih =>
    rw [encBools_cons]
    simp [encBool, ih]
    omega

theorem readFull_exact (n : Nat) (s : List Nat) (h : n ≤ s.length) :
    readFull n s = (.ok (s.take n), s.drop n) := by
  unfold readFull
  rcases Nat.eq_zero_or_pos n with h0 | h0
  · subst h0; simp
  · have hs : s.length ≠ 0 := by omega
    have hns : ¬ s.length < n := by omega
    simp [Nat.pos_iff_ne_zero.mp h0, hs, hns]

/-- One BOOLEAN element decodes off the front of the stream. -/
theorem decodeField_bool_elem (b : Bool) (rest : List Nat) (f : Nat) :
    decodeField (f + 1) .bool (encBool b ++ rest) = (.ok (.boolV b), rest) := by
  cases b <;>
    simp +decide [decodeField, encBool, decodeType, checkTag, decodePrimitive,
      decodeLengthAndContent, decodeLength, decodeContent, readFull, decodeBool,
      ClassUniversal, TagBoolean, TagInteger, TagOctetString, TagEnumerated, TagSequence]

/-- The element loop consumes a run of encoded booleans and stops at
end-of-source with the elements decoded so far (definite-length interior). -/
theorem seqLoop_encBools_eof (bs : List Bool) :
    ∀ (g f : Nat) (acc : List GoValue), bs.length + 1 ≤ g →
      seqLoop (decodeField (f + 1)) .bool g acc (encBools bs) =
        (.ok (acc ++ boolVals bs), []) := by
  induction bs with
  | nil =>
    intro g f acc hg
    obtain ⟨g1, rfl⟩ : ∃ g1, g = g1 + 1 := ⟨g - 1, by omega⟩
    simp [seqLoop, decodeField, decodeType, encBools, boolVals]
  | cons b bs ih =>
    intro g f acc hg
    obtain ⟨g1, rfl⟩ : ∃ g1, g = g1 + 1 := ⟨g - 1, by omega⟩
    rw [encBools_cons]
    simp only [seqLoop]
    rw [decodeField_bool_elem]
    dsimp only
    rw [ih g1 f (acc ++ [GoValue.boolV b]) (by simp at hg ⊢; omega)]
    simp [boolVals]

/-- The element loop consumes a run of encoded booleans and stops at the EOC
marker, consuming its two octets (indefinite-length interior). -/
theorem seqLoop_encBools_eoc (bs : List Bool) :
    ∀ (g f : Nat) (acc : List GoValue) (rest : List Nat), bs.length + 1 ≤ g →
      seqLoop (decodeField (f + 1)) .bool g acc (encBools bs ++ 0x00 :: 0x00 :: rest) =
        (.ok (acc ++ boolVals bs), rest) := by
  induction bs with
  | nil =>
    intro g f acc rest hg
    obtain ⟨g1, rfl⟩ : ∃ g1, g = g1 + 1 := ⟨g - 1, by omega⟩
    simp [seqLoop, decodeField, decodeType, encBools, boolVals]
  | cons b bs ih =>
    intro g f acc rest hg
    obtain ⟨g1, rfl⟩ : ∃ g1, g = g1 + 1 := ⟨g - 1, by omega⟩
    rw [encBools_cons, List.append_assoc]
    simp only [seqLoop]
    rw [decodeField_bool_elem]
    dsimp only
    rw [ih g1 f (acc ++ [GoValue.boolV b]) rest (by simp at hg ⊢; omega)]
    simp [boolVals]

/-- Decoding the definite-length encoding of a `SEQUENCE OF BOOLEAN`. -/
theorem decode_defEnc (bs : List Bool) (rest : List Nat) (f : Nat)
    (hf : bs.length + 1 ≤ f) (hl : 3 * bs.length < 128) :
    decodeField (f + 1) (.seqOf .bool) (defEnc bs ++ rest) =
      (.ok (.seqV (boolVals bs)), rest) := by
  obtain ⟨f1, rfl⟩ : ∃ f1, f = f1 + 1 := ⟨f - 1, by omega⟩
  have hty : decodeType ((defEnc bs ++ rest)) =
      (.ok (0, 16, true), (3 * bs.length) :: (encBools bs ++ rest)) := by
    simp +decide [defEnc, decodeType]
  have hck : checkTag 0 16 true (.seqOf .bool) = .ok () := rfl
  have hlen : decodeLength ((3 * bs.length) :: (encBools bs ++ rest)) =
      (.ok (3 * bs.length, false), encBools bs ++ rest) := by
    unfold decodeLength
    simp [hl]
  have hcont : decodeContent (3 * bs.length) false (encBools bs ++ rest) =
      (.ok (encBools bs), rest) := by
    unfold decodeContent
    rw [if_neg (by simp)]
    rw [readFull_exact _ _ (by simp [encBools_length])]
    rw [List.take_append_of_le_length (by simp [encBools_length]),
        List.drop_append_of_le_length (by simp [encBools_length])]
    simp [encBools_length]
  rw [decodeField]
  dsimp only
  rw [hty]
  simp +decide only [hck, decodeConstructed, decodeSequenceSlice, hlen, hcont]
  rw [seqLoop_encBools_eof bs (f1 + 1) f1 [] (by omega)]
  simp

/-- Decoding the indefinite-length encoding of a `SEQUENCE OF BOOLEAN`. -/
theorem decode_indefEnc (bs : List Bool) (rest : List Nat) (f : Nat)
    (hf : bs.length + 1 ≤ f) :
    decodeField (f + 1) (.seqOf .bool) (0x30 :: 0x80 :: (encBools bs ++ 0x00 :: 0x00 :: rest)) =
      (.ok (.seqV (boolVals bs)), rest) := by
  obtain ⟨f1, rfl⟩ : ∃ f1, f = f1 + 1 := ⟨f - 1, by omega⟩
  have hty : decodeType (0x30 :: 0x80 :: (encBools bs ++ 0x00 :: 0x00 :: rest)) =
      (.ok (0, 16, true), 0x80 :: (encBools bs ++ 0x00 :: 0x00 :: rest)) := by
    simp +decide [decodeType]
  have hck : checkTag 0 16 true (.seqOf .bool) = .ok () := rfl
  have hlen : decodeLength (0x80 :: (encBools bs ++ 0x00 :: 0x00 :: rest)) =
      (.ok (0, true), encBools bs ++ 0x00 :: 0x00 :: rest) := by
    unfold decodeLength
    norm_num
  rw [decodeField]
  dsimp only
  rw [hty]
  simp +decide only [hck, decodeConstructed, decodeSequenceSlice, hlen]
  rw [seqLoop_encBools_eoc bs (f1 + 1) f1 [] rest (by omega)]
  simp

/-- Content octets that contain no EOC marker when followed by `0x00 0x00`:
no two adjacent zero octets inside, and the last octet (if any) nonzero. -/
def cleanContent : List Nat → Bool
  | [] => true
  | [x] => x != 0
  | x :: y :: rest => (!(x == 0 && y == 0)) && cleanContent (y :: rest)

theorem getD_snoc2_pen (l : List Nat) (p q : Nat) :
    (l ++ [p, q]).getD ((l ++ [p, q]).length - 2) 1 = p := by
  induction l with
  | nil => rfl
  | cons a l ih => simpa using ih

theorem getD_snoc2_last (l : List Nat) (p q : Nat) :
    (l ++ [p, q]).getD ((l ++ [p, q]).length - 1) 1 = q := by
  induction l with
  | nil => rfl
  | cons a l ih => simpa using ih

/-- Splitting the `cleanContent` predicate at the head pair. -/
theorem cleanContent_cons_cons (q x : Nat) (u : List Nat)
    (h : cleanContent (q :: x :: u) = true) :
    ¬(q = 0 ∧ x = 0) ∧ cleanContent (x :: u) = true := by
  have h2 : ((!(q == 0 && x == 0)) && cleanContent (x :: u)) = true := h
  constructor
  · intro hc
    rw [hc.1, hc.2] at h2
    simp at h2
  · cases hcx : cleanContent (x :: u) with
    | true => rfl
    | false => rw [hcx] at h2; simp at h2

/-- One-step unfolding of the EOC scanning loop. -/
theorem indefLoop_unfold (b s : List Nat) :
    indefLoop b s =
      if b.getD (b.length - 2) 1 = 0 ∧ b.getD (b.length - 1) 1 = 0 then
        (.ok (b.take (b.length - 2)), s)
      else
        match s with
        | [] => (.error .ioEOF, [])
        | x :: rest => indefLoop (b ++ [x]) rest := by
  rw [indefLoop.eq_def]

/-- The EOC scanning loop across clean interior octets, ending at the marker. -/
theorem indefLoop_scan (u : List Nat) :
    ∀ (l : List Nat) (p q : Nat) (rest : List Nat),
      ¬(p = 0 ∧ q = 0) → cleanContent (q :: u) = true →
      indefLoop (l ++ [p, q]) (u ++ 0x00 :: 0x00 :: rest) =
        (.ok (l ++ [p, q] ++ u), rest) := by
  induction u with
  | nil =>
    intro l p q rest hpq hq
    have hq0 : q ≠ 0 := by simpa [cleanContent] using hq
    rw [indefLoop_unfold]
    rw [if_neg (by rw [getD_snoc2_pen, getD_snoc2_last]; exact hpq)]
    simp only [List.nil_append]
    have e1 : (l ++ [p, q]) ++ [0] = (l ++ [p]) ++ [q, 0] := by simp
    rw [e1, indefLoop_unfold]
    rw [if_neg (by rw [getD_snoc2_pen, getD_snoc2_last]; exact fun h => hq0 h.1)]
    have e2 : ((l ++ [p]) ++ [q, 0]) ++ [0] = (l ++ [p, q]) ++ [0, 0] := by simp
    dsimp only
    rw [e2, indefLoop_unfold]
    rw [if_pos (by rw [getD_snoc2_pen, getD_snoc2_last]; exact ⟨rfl, rfl⟩)]
    have e3 : ((l ++ [p, q]) ++ [0, 0]).length - 2 = (l ++ [p, q]).length := by
      simp
    rw [e3, List.take_left]
    simp
  | cons x u ih =>
    intro l p q rest hpq hq
    obtain ⟨hq2, hcx⟩ := cleanContent_cons_cons q x u hq
    rw [indefLoop_unfold]
    rw [if_neg (by rw [getD_snoc2_pen, getD_snoc2_last]; exact hpq)]
    simp only [List.cons_append]
    have e1 : (l ++ [p, q]) ++ [x] = (l ++ [p]) ++ [q, x] := by simp
    rw [e1, ih (l ++ [p]) q x rest hq2 hcx]
    simp

/-- The EOC scanning loop across clean octets with no marker: the source is
exhausted and the read failure propagates. -/
theorem indefLoop_exhaust (u : List Nat) :
    ∀ (l : List Nat) (p q : Nat),
      ¬(p = 0 ∧ q = 0) → cleanContent (q :: u) = true →
      indefLoop (l ++ [p, q]) u = (.error .ioEOF, []) := by
  induction u with
  | nil =>
    intro l p q hpq _
    rw [indefLoop_unfold]
    rw [if_neg (by rw [getD_snoc2_pen, getD_snoc2_last]; exact hpq)]
  | cons x u ih =>
    intro l p q hpq hq
    obtain ⟨hq2, hcx⟩ := cleanContent_cons_cons q x u hq
    rw [indefLoop_unfold]
    rw [if_neg (by rw [getD_snoc2_pen, getD_snoc2_last]; exact hpq)]
    dsimp only
    have e1 : (l ++ [p, q]) ++ [x] = (l ++ [p]) ++ [q, x] := by simp
    rw [e1, ih (l ++ [p]) q x hq2 hcx]

/-- Indefinite content reading: clean content followed by the EOC marker is
returned with the marker stripped, leaving the rest of the source. -/
theorem decodeContent_indef_ok (c rest : List Nat) (len : Nat)
    (hc : cleanContent c = true) :
    decodeContent len true (c ++ 0x00 :: 0x00 :: rest) = (.ok c, rest) := by
  match c with
  | [] =>
    simp only [List.nil_append, decodeContent, if_pos]
    rw [readFull_exact 2 (0x00 :: 0x00 :: rest) (by simp)]
    simp [indefLoop_unfold]
  | [x] =>
    have hx : x ≠ 0 := by simpa [cleanContent] using hc
    simp only [List.cons_append, List.nil_append, decodeContent, if_pos]
    rw [readFull_exact 2 (x :: 0x00 :: 0x00 :: rest) (by simp)]
    simp only [List.take_succ_cons, List.take_zero, List.drop_succ_cons, List.drop_zero]
    rw [indefLoop_unfold]
    rw [if_neg (by simpa using hx)]
    dsimp only
    rw [show [x, 0] ++ [0] = ([] : List Nat) ++ [x] ++ [0, 0] by simp]
    rw [indefLoop_unfold]
    rw [if_pos (by rw [getD_snoc2_pen, getD_snoc2_last]; exact ⟨rfl, rfl⟩)]
    simp
  | x :: y :: c2 =>
    obtain ⟨hxy, hyc⟩ := cleanContent_cons_cons x y c2 hc
    simp only [List.cons_append, decodeContent, if_pos]
    rw [readFull_exact 2 (x :: y :: (c2 ++ 0x00 :: 0x00 :: rest)) (by simp)]
    simp only [List.take_succ_cons, List.take_zero, List.drop_succ_cons, List.drop_zero]
    have := indefLoop_scan c2 [] x y rest hxy hyc
    simpa using this

/-- Indefinite content reading with no terminator: the read failure at
source exhaustion propagates. -/
theorem decodeContent_indef_exhaust (c : List Nat) (len : Nat)
    (hc : cleanContent c = true) :
    decodeContent len true c =
      (.error (if c.length = 1 then Err.ioUnexpectedEOF else .ioEOF), []) := by
  match c with
  | [] => simp [decodeContent, readFull]
  | [x] => simp [decodeContent, readFull]
  | x :: y :: c2 =>
    obtain ⟨hxy, hyc⟩ := cleanContent_cons_cons x y c2 hc
    simp only [List.cons_append, decodeContent, if_pos]
    rw [readFull_exact 2 (x :: y :: c2) (by simp)]
    simp only [List.take_succ_cons, List.take_zero, List.drop_succ_cons, List.drop_zero]
    have := indefLoop_exhaust c2 [] x y hxy hyc
    simp only [List.nil_append] at this
    rw [this]
    simp

/-- The fold `a ↦ a * 256 + x` only grows its accumulator. -/
theorem beFold_mono (b : List Nat) :
    ∀ a : Nat, a ≤ b.foldl (fun a x => a * 256 + x) a := by
  induction b with
  | nil => intro a; simp
  | cons x b ih =>
    intro a
    calc a ≤ a * 256 + x := by omega
    _ ≤ b.foldl (fun a x => a * 256 + x) (a * 256 + x) := ih _
    _ = (x :: b).foldl (fun a x => a * 256 + x) a := by simp

/-- Below `2^64` the decoder's shift-and-add accumulator agrees with the
plain big-endian value. -/
theorem shiftFold_eq_beFold (b : List Nat) :
    ∀ a : Nat, b.foldl (fun a x => a * 256 + x) a < two64 →
      b.foldl (fun acc x => (acc <<< 8 + x) % two64) a =
        b.foldl (fun a x => a * 256 + x) a := by
  induction b with
  | nil => intro a _; simp
  | cons x b ih =>
    intro a hlt
    have hstep : (a <<< 8 + x) % two64 = a * 256 + x := by
      rw [Nat.shiftLeft_eq]
      norm_num
      apply Nat.mod_eq_of_lt
      calc a * 256 + x ≤ b.foldl (fun a x => a * 256 + x) (a * 256 + x) := beFold_mono b _
      _ < two64 := by simpa using hlt
    simp only [List.foldl_cons, hstep]
    exact ih (a * 256 + x) (by simpa using hlt)

/-- Shifting left by a full byte and or-ing in a byte is plain addition. -/
theorem shiftLeft_lor_eq_add (a x : Nat) (hx : x < 256) :
    a <<< 8 ||| x = a <<< 8 + x := by
  apply Nat.eq_of_testBit_eq
  intro j
  rw [Nat.testBit_or]
  rcases Nat.lt_or_ge j 8 with hj | hj
  · have h1 : (a <<< 8).testBit j = false := by
      rw [Nat.testBit_shiftLeft]
      simp only [ge_iff_le, Bool.and_eq_false_imp, decide_eq_true_eq]
      omega
    rw [h1, Bool.false_or]
    have hm : (a <<< 8 + x) % 2 ^ 8 = x := by
      rw [Nat.shiftLeft_eq, Nat.mul_comm a, Nat.mul_add_mod]
      exact Nat.mod_eq_of_lt (by norm_num; omega)
    have h2 := Nat.testBit_mod_two_pow (a <<< 8 + x) 8 j
    rw [hm] at h2
    rw [h2]
    simp [hj]
  · have hxj : x.testBit j = false := by
      apply Nat.testBit_lt_two_pow
      calc x < 256 := hx
      _ ≤ 2 ^ j := by
        have : (256 : Nat) = 2 ^ 8 := by norm_num
        rw [this]
        exact Nat.pow_le_pow_right (by norm_num) hj
    rw [hxj, Bool.or_false, Nat.testBit_shiftLeft]
    have hd : decide (j ≥ 8) = true := by simp [hj]
    rw [hd, Bool.true_and]
    have hdiv : (a <<< 8 + x) / 2 ^ j = a / 2 ^ (j - 8) := by
      rw [Nat.shiftLeft_eq]
      have hj8 : (2 : Nat) ^ j = 2 ^ 8 * 2 ^ (j - 8) := by
        rw [← pow_add]
        congr 1
        omega
      rw [hj8, ← Nat.div_div_eq_div_mul]
      congr 1
      rw [Nat.mul_comm a, Nat.mul_add_div (by norm_num)]
      have : x / 2 ^ 8 = 0 := Nat.div_eq_of_lt (by norm_num; omega)
      omega
    rw [Nat.testBit_to_div_mod, Nat.testBit_to_div_mod, hdiv]

/-- The or-based length accumulator of `decodeLength` agrees with the
add-based accumulator on octet inputs. -/
theorem orFold_eq_shiftFold (b : List Nat) :
    ∀ a : Nat, (∀ x ∈ b, x < 256) →
      b.foldl (fun len x => (len <<< 8 ||| x) % two64) a =
        b.foldl (fun acc x => (acc <<< 8 + x) % two64) a := by
  induction b with
  | nil => intro a _; rfl
  | cons x b ih =>
    intro a hb
    simp only [List.foldl_cons]
    rw [shiftLeft_lor_eq_add a x (hb x (by simp))]
    exact ih _ (fun y hy => hb y (by simp [hy]))

/-- The big-endian two's-complement reading of content octets as the claim
words it: a first octet with its high bit set yields the corresponding
negative value.  This follows the spec text, for comparison with the code's
`decodeInteger`. -/
def specTwosComplement (b : List Nat) : Int :=
  if 0x80 ≤ b.headD 0 then (beValue b : Int) - 2 ^ (8 * b.length) else (beValue b : Int)

/-- C1, counterexample: the content octet `0xFF` decodes to `255` (the code
does not sign-extend), although its two's-complement reading is `-1`; and
into an 8-bit target it fails with overflow although `-1` fits 8 bits. -/
theorem C1_counterexample :
    decodeInteger [0xff] .int64 = .ok (.intV .int64 255) ∧
    specTwosComplement [0xff] = -1 ∧
    decodeInteger [0xff] .int8 = .error (.structuralError "integer overflow") := by
  refine ⟨rfl, ?_, rfl⟩
  norm_num [specTwosComplement, beValue]

/-- C1, amended: empty integer content fails with `SyntaxError`; otherwise
the result is the plain big-endian value of the content octets read through
the signed 64-bit accumulator (no sign extension from the content width),
and a narrower target fails with `StructuralError` exactly when that value
does not fit the target width. -/
theorem C1_integer_decode (b : List Nat) (t : GoType) (hne : b ≠ [])
    (hv : beValue b < two64) :
    decodeInteger [] t = .error (.syntaxError "integer must have at least one byte of content") ∧
    decodeInteger b t =
      (if -((2 : Int) ^ (intWidth t - 1)) ≤ toSigned64 (beValue b) ∧
          toSigned64 (beValue b) < (2 : Int) ^ (intWidth t - 1)
       then .ok (.intV t (toSigned64 (beValue b)))
       else .error (.structuralError "integer overflow")) := by
  refine ⟨rfl, ?_⟩
  have hacc : b.foldl (fun acc x => (acc <<< 8 + x) % two64) 0 = beValue b :=
    shiftFold_eq_beFold b 0 hv
  by_cases h : -((2 : Int) ^ (intWidth t - 1)) ≤ toSigned64 (beValue b) ∧
      toSigned64 (beValue b) < (2 : Int) ^ (intWidth t - 1)
  · simp [decodeInteger, overflowInt, hacc, h, hne]
  · simp [decodeInteger, overflowInt, hacc, h, hne]

/-- C1 witness: the amended statement at content `0xFF` with an `int64`
target (value `255`) and at `0x01 0x00` with an `int8` target (overflow). -/
theorem C1_integer_decode_witness :
    decodeInteger [0xff] .int64 = .ok (.intV .int64 (toSigned64 (beValue [0xff]))) ∧
    decodeInteger [0x01, 0x00] .int8 = .error (.structuralError "integer overflow") := by
  have h1 := (C1_integer_decode [0xff] .int64 (by decide) (by decide)).2
  have h2 := (C1_integer_decode [0x01, 0x00] .int8 (by decide) (by decide)).2
  rw [if_pos (by decide)] at h1
  rw [if_neg (by decide)] at h2
  exact ⟨h1, h2⟩

/-- C2, counterexample: the public decode of a standalone scalar on the
EOC marker `0x00 0x00` fails with the `EOC` sentinel error itself, which is
not a `SyntaxError`. -/
theorem C2_counterexample :
    decodeField 1 .bool [0x00, 0x00] = (.error .eoc, []) ∧
    Err.isSyntaxErr .eoc = false :=
  ⟨rfl, rfl⟩

/-- C2, amended: at indefinite-length boundaries the EOC marker is consumed
internally by the sequence decoder (the whole decode succeeds and the
sentinel does not escape), while an EOC marker where a value was expected
makes the call fail by returning the `EOC` sentinel error itself — not a
`SyntaxError`. -/
theorem C2_eoc_sentinel (bs : List Bool) (rest : List Nat) (f : Nat)
    (hf : bs.length + 1 ≤ f) :
    decodeField (f + 1) (.seqOf .bool)
        (0x30 :: 0x80 :: (encBools bs ++ 0x00 :: 0x00 :: rest)) =
      (.ok (.seqV (boolVals bs)), rest) ∧
    decodeField 1 .bool [0x00, 0x00] = (.error .eoc, []) ∧
    Err.isSyntaxErr .eoc = false := by
  exact ⟨decode_indefEnc bs rest f hf, rfl, rfl⟩

/-- C2 witness: the amended statement at the one-element sequence
`0x30 0x80 0x01 0x01 0x01 0x00 0x00`. -/
theorem C2_eoc_sentinel_witness :
    decodeField 3 (.seqOf .bool)
        (0x30 :: 0x80 :: (encBools [true] ++ 0x00 :: 0x00 :: [])) =
      (.ok (.seqV (boolVals [true])), []) ∧
    decodeField 1 .bool [0x00, 0x00] = (.error .eoc, []) := by
  have h := C2_eoc_sentinel [true] [] 2 (by decide)
  exact ⟨h.1, h.2.1⟩

/-- C3: evaluating the code at the failing input.  The identifier octets
`0x1f 0x7f` yield tag `31` — the accumulation masks each continuation octet
with `0x1f` (5 bits) — although the claim (and the spec, and the adjacent
zero-check in the same function, which uses `0x7f`) say the low 7 bits
contribute, which would give tag `127`. -/
theorem C3_long_form_tag_mask :
    decodeType [0x1f, 0x7f] = (.ok (0, 31, false), []) ∧ (31 : Nat) ≠ 0x7f :=
  ⟨rfl, by decide⟩

/-- C4: for sequences of booleans, the definite-length encoding and the
indefinite-length (EOC-terminated) encoding decode to identical values; in
particular `0x30 0x00` and `0x30 0x80 0x00 0x00` both decode to the empty
sequence. -/
theorem C4_def_indef_equiv (bs : List Bool) (f : Nat) (hf : bs.length + 1 ≤ f)
    (hl : 3 * bs.length < 128) :
    decodeField (f + 1) (.seqOf .bool) (defEnc bs) = (.ok (.seqV (boolVals bs)), []) ∧
    decodeField (f + 1) (.seqOf .bool) (indefEnc bs) = (.ok (.seqV (boolVals bs)), []) ∧
    defEnc [] = [0x30, 0x00] ∧ indefEnc [] = [0x30, 0x80, 0x00, 0x00] := by
  refine ⟨?_, ?_, rfl, rfl⟩
  · have h := decode_defEnc bs [] f hf hl
    simpa using h
  · have h := decode_indefEnc bs [] f hf
    simpa [indefEnc] using h

/-- C4 witness: the empty sequence, which is exactly the claim's
`0x30 0x00` / `0x30 0x80 0x00 0x00` example. -/
theorem C4_def_indef_equiv_witness :
    decodeField 2 (.seqOf .bool) (defEnc []) = (.ok (.seqV (boolVals [])), []) ∧
    decodeField 2 (.seqOf .bool) (indefEnc []) = (.ok (.seqV (boolVals [])), []) := by
  have h := C4_def_indef_equiv [] 1 (by decide) (by decide)
  exact ⟨h.1, h.2.1⟩

/-- C10: `io.EOF` raised while decoding an element ends the sequence
successfully in both length disciplines, even mid-element: `0x30 0x80`
(indefinite, no EOC) decodes to the empty sequence; an `io.EOF` after a
complete first element discards the partial second element; and in the
definite discipline a truncated element inside the bounded content region
is likewise discarded. -/
theorem C10_eof_ends_sequence :
    decodeField 3 (.seqOf .bool) [0x30, 0x80] = (.ok (.seqV []), []) ∧
    decodeField 4 (.seqOf .bool) [0x30, 0x80, 0x01, 0x01, 0x01, 0x01] =
      (.ok (.seqV [.boolV true]), []) ∧
    decodeField 3 (.seqOf .bool) [0x30, 0x02, 0x01, 0x01] = (.ok (.seqV []), []) :=
  ⟨rfl, rfl, rfl⟩

/-- C5: `decodeContent` in the definite case reads exactly `len` octets and
propagates the I/O failure of a short read; in the indefinite case it
accumulates content until two consecutive zero octets, returns it with the
two trailing zeros stripped, and propagates the read failure when the
source ends before a terminator. -/
theorem C5_decode_content (len : Nat) (s c rest : List Nat)
    (hc : cleanContent c = true) :
    (len ≤ s.length → decodeContent len false s = (.ok (s.take len), s.drop len)) ∧
    (s.length < len → decodeContent len false s =
      (.error (if s.length = 0 then Err.ioEOF else .ioUnexpectedEOF), [])) ∧
    decodeContent len true (c ++ 0x00 :: 0x00 :: rest) = (.ok c, rest) ∧
    decodeContent len true c =
      (.error (if c.length = 1 then Err.ioUnexpectedEOF else .ioEOF), []) := by
  refine ⟨?_, ?_, decodeContent_indef_ok c rest len hc,
    decodeContent_indef_exhaust c len hc⟩
  · intro h
    unfold decodeContent
    rw [if_neg (by simp)]
    exact readFull_exact len s h
  · intro h
    unfold decodeContent
    rw [if_neg (by simp)]
    unfold readFull
    have h0 : ¬ len = 0 := by omega
    by_cases hs : s.length = 0
    · simp [h0, hs]
    · simp [h0, hs, h]

/-- C5 witness: a definite exact read, a definite short read, an indefinite
read ending at the marker, and an indefinite read with no marker. -/
theorem C5_decode_content_witness :
    decodeContent 2 false [7, 8, 9] = (.ok [7, 8], [9]) ∧
    decodeContent 5 false [7] = (.error .ioUnexpectedEOF, []) ∧
    decodeContent 0 true ([3] ++ 0x00 :: 0x00 :: [9]) = (.ok [3], [9]) ∧
    decodeContent 0 true [3] = (.error .ioUnexpectedEOF, []) := by
  have h1 := C5_decode_content 2 [7, 8, 9] [3] [9] (by decide)
  have h2 := C5_decode_content 5 [7] [3] [9] (by decide)
  refine ⟨h1.1 (by decide), ?_, h1.2.2.1, ?_⟩
  · have := h2.2.1 (by decide)
    simpa using this
  · have := h2.2.2.2
    simpa using this

/-- C6, counterexample: a long-form length whose octets the source cannot
supply fails with the propagated `io.EOF`, not with a `SyntaxError`. -/
theorem C6_counterexample :
    decodeLength [0x81] = (.error .ioEOF, []) ∧ Err.isSyntaxErr .ioEOF = false :=
  ⟨rfl, rfl⟩

/-- C6, amended: a first octet below `0x80` is a direct short-form length;
`0x80` signals indefinite; `0xff` fails with `SyntaxError`; otherwise the
low 7 bits of the first octet give a count of following big-endian octets
accumulated into the length when that count fits the 10-octet scratch
buffer (a larger declared width crashes with a slice-bounds panic); and
when the source is exhausted or cannot supply the declared width the
decoder fails by propagating the underlying read error, not with a
`SyntaxError`. -/
theorem C6_decode_length (c : Nat) (rest : List Nat) :
    (c < 0x80 → decodeLength (c :: rest) = (.ok (c, false), rest)) ∧
    decodeLength (0x80 :: rest) = (.ok (0, true), rest) ∧
    decodeLength (0xff :: rest) = (.error (.syntaxError "long-form length"), rest) ∧
    (0x80 < c → c < 0xff → c &&& 0x7f ≤ 10 → c &&& 0x7f ≤ rest.length →
      (∀ x ∈ rest.take (c &&& 0x7f), x < 256) →
      beValue (rest.take (c &&& 0x7f)) < two64 →
      decodeLength (c :: rest) =
        (.ok (beValue (rest.take (c &&& 0x7f)), false), rest.drop (c &&& 0x7f))) ∧
    (0x80 < c → c < 0xff → 10 < c &&& 0x7f →
      decodeLength (c :: rest) = (.error .panicSliceBounds, rest)) ∧
    decodeLength [] = (.error .ioEOF, []) ∧
    (0x80 < c → c < 0xff → c &&& 0x7f ≤ 10 → rest.length < c &&& 0x7f →
      decodeLength (c :: rest) =
        (.error (if rest.length = 0 then Err.ioEOF else .ioUnexpectedEOF), [])) := by
  refine ⟨?_, rfl, rfl, ?_, ?_, rfl, ?_⟩
  · intro h
    unfold decodeLength
    dsimp only
    rw [if_pos h]
  · intro h1 h2 h3 h4 h5 h6
    unfold decodeLength
    dsimp only
    rw [if_neg (by omega), if_neg (by omega), if_neg (by omega), if_neg (by omega)]
    rw [readFull_exact _ _ h4]
    dsimp only
    rw [orFold_eq_shiftFold _ 0 h5]
    rw [shiftFold_eq_beFold _ 0 h6]
    rfl
  · intro h1 h2 h3
    unfold decodeLength
    dsimp only
    rw [if_neg (by omega), if_neg (by omega), if_neg (by omega), if_pos h3]
  · intro h1 h2 h3 h4
    unfold decodeLength
    dsimp only
    rw [if_neg (by omega), if_neg (by omega), if_neg (by omega), if_neg (by omega)]
    unfold readFull
    have h0 : ¬ c &&& 0x7f = 0 := by omega
    by_cases hs : rest.length = 0
    · simp [h0, hs]
    · simp [h0, hs, h4]

/-- C6 witness: the short form, the two-octet long form `0x82 0x01 0x00`
(length 256), the panic width, and an unsuppliable width. -/
theorem C6_decode_length_witness :
    decodeLength (0x05 :: [9]) = (.ok (5, false), [9]) ∧
    decodeLength (0x82 :: [0x01, 0x00, 9]) = (.ok (256, false), [9]) ∧
    decodeLength (0x8b :: [1]) = (.error .panicSliceBounds, [1]) ∧
    decodeLength (0x82 :: [1]) = (.error .ioUnexpectedEOF, []) := by
  have h1 := (C6_decode_length 0x05 [9]).1 (by decide)
  have h2 := (C6_decode_length 0x82 [0x01, 0x00, 9]).2.2.2.1
    (by decide) (by decide) (by decide) (by decide) (by decide) (by decide)
  have h3 := (C6_decode_length 0x8b [1]).2.2.2.2.1 (by decide) (by decide) (by decide)
  have h4 := (C6_decode_length 0x82 [1]).2.2.2.2.2.2
    (by decide) (by decide) (by decide) (by decide)
  refine ⟨h1, ?_, h3, ?_⟩
  · have : beValue ([0x01, 0x00, 9].take (0x82 &&& 0x7f)) = 256 := by decide
    rw [this] at h2
    simpa using h2
  · simpa using h4

/-- Does `tag` name the primitive universal encoding of target kind `t`
(BOOLEAN for `bool`, OCTET STRING for `[]byte`, INTEGER and ENUMERATED for
the integer kinds)? -/
def primTagFor (t : GoType) (tag : Nat) : Bool :=
  (decide (tag = TagBoolean) && decide (t = GoType.bool)) ||
  (decide (tag = TagOctetString) && decide (t = GoType.byteSlice)) ||
  ((decide (tag = TagInteger) || decide (tag = TagEnumerated)) && isIntKind t)

/-- C7, counterexample: a constructed BOOLEAN (`0x21 ...`) decoded into a
boolean target fails with `StructuralError` (tag mismatch), not with
`SyntaxError`. -/
theorem C7_counterexample :
    decodeField 1 .bool [0x21, 0x01, 0x00] =
      (.error (.structuralError "tag mismatch"), [0x01, 0x00]) ∧
    Err.isSyntaxErr (.structuralError "tag mismatch") = false :=
  ⟨rfl, rfl⟩

/-- C7, amended: every primitive decode request (boolean, integer, octet
string, enumerated) fails with `StructuralError` (tag mismatch) whenever
the TLV carries the matching universal tag with the constructed bit set. -/
theorem C7_constructed_primitive (t : GoType) (tag : Nat) (s : List Nat) (f : Nat)
    (h : primTagFor t tag = true) :
    decodeField (f + 1) t ((0x20 ||| tag) :: s) =
      (.error (.structuralError "tag mismatch"), s) := by
  simp only [primTagFor, Bool.or_eq_true, Bool.and_eq_true, decide_eq_true_eq,
    TagBoolean, TagOctetString, TagInteger, TagEnumerated] at h
  rcases h with (⟨rfl, rfl⟩ | ⟨rfl, rfl⟩) | ⟨htag, hint⟩
  · simp +decide [decodeField, decodeType, checkTag, ClassUniversal, TagBoolean,
      TagOctetString, TagInteger, TagEnumerated, TagSequence, isByteSliceKind, isIntKind]
  · simp +decide [decodeField, decodeType, checkTag, ClassUniversal, TagBoolean,
      TagOctetString, TagInteger, TagEnumerated, TagSequence, isByteSliceKind, isIntKind]
  · rcases htag with rfl | rfl <;>
      cases t <;>
        simp only [isIntKind, Bool.false_eq_true] at hint <;>
          simp +decide [decodeField, decodeType, checkTag, ClassUniversal, TagBoolean,
            TagOctetString, TagInteger, TagEnumerated, TagSequence, isByteSliceKind, isIntKind]

/-- C7 witness: a constructed INTEGER into an `int64` target. -/
theorem C7_constructed_primitive_witness :
    decodeField 1 .int64 ((0x20 ||| 2) :: [0x01, 0x00]) =
      (.error (.structuralError "tag mismatch"), [0x01, 0x00]) :=
  C7_constructed_primitive .int64 2 [0x01, 0x00] 0 (by decide)

/-- C8: whenever the definite branch of `decodeSequenceSlice` is reached
(length decoded as definite, content read successfully), the byte source
after the call is exactly the source as it stood after the content read —
for every element decoder and every outcome of the element loop, success or
failure: the substituted bounded sub-view never leaks out. -/
theorem C8_source_restored (df : GoType → DecM GoValue) (fuel : Nat) (t : GoType)
    (s s1 s2 : List Nat) (len : Nat) (b : List Nat)
    (h1 : decodeLength s = (.ok (len, false), s1))
    (h2 : decodeContent len false s1 = (.ok b, s2)) :
    (decodeSequenceSlice df fuel t s).2 = s2 := by
  unfold decodeSequenceSlice
  rw [h1]
  dsimp only
  rw [if_neg (by simp), h2]
  dsimp only
  rcases hseq : seqLoop df t fuel [] b with ⟨r, s0⟩
  cases r <;> rfl

/-- C8 witness: the empty definite-length sequence `0x30 0x00`, source
restored to the remaining input. -/
theorem C8_source_restored_witness :
    (decodeSequenceSlice (decodeField 1) 1 .bool [0x00, 9]).2 = [9] :=
  C8_source_restored (decodeField 1) 1 .bool [0x00, 9] [9] [9] 0 [] rfl rfl

/-- Modelled from the spec: re-tagging mode of a per-field override
(spec section 4.4); `modeUnspecified` defers to the decoder-wide
implicit-by-default flag. -/
inductive TagMode where
  | modeUnspecified
  | modeImplicit
  | modeExplicit
deriving DecidableEq, Repr

/-- Modelled from the spec: a parsed per-field tag override (spec sections
4.4 and 6): optional tag number, target class (default context-specific),
and re-tagging mode. -/
structure TagOverride where
  tagNum : Option Nat
  cls : Nat
  mode : TagMode
deriving DecidableEq, Repr

/-- Split an option string's characters at commas. -/
def splitOnComma : List Char → List (List Char)
  | [] => [[]]
  | c :: rest =>
    let r := splitOnComma rest
    if c = ',' then [] :: r
    else
      match r with
      | [] => [[c]]
      | g :: gs => (c :: g) :: gs

/-- Parse a nonempty run of decimal digits. -/
def parseNatChars (cs : List Char) : Option Nat :=
  if cs = [] then none
  else
    cs.foldl
      (fun acc c =>
        match acc with
        | none => none
        | some n => if c.isDigit then some (n * 10 + (c.toNat - 48)) else none)
      (some 0)

/-- Modelled from the spec: apply one directive of the override grammar
(spec section 6): `tag:<N>`, `implicit`, `explicit`, and the class keywords
`application` / `universal` / `private`. -/
def applyDirective (ov : TagOverride) (d : List Char) : TagOverride :=
  if d = "implicit".toList then ⟨ov.tagNum, ov.cls, .modeImplicit⟩
  else if d = "explicit".toList then ⟨ov.tagNum, ov.cls, .modeExplicit⟩
  else if d = "application".toList then ⟨ov.tagNum, 1, ov.mode⟩
  else if d = "universal".toList then ⟨ov.tagNum, 0, ov.mode⟩
  else if d = "private".toList then ⟨ov.tagNum, 3, ov.mode⟩
  else
    match d with
    | 't' :: 'a' :: 'g' :: ':' :: ds => ⟨parseNatChars ds, ov.cls, ov.mode⟩
    | _ => ov

/-- Modelled from the spec: parse a comma-separated override string; the
class defaults to context-specific (2) when a tag number is given without a
class keyword; an empty string means no override (spec sections 4.4, 6). -/
def parseOverride (s : String) : Option TagOverride :=
  if s = "" then none
  else some ((splitOnComma s.toList).foldl applyDirective ⟨none, 2, .modeUnspecified⟩)

/-- Modelled from the spec: the constructed-bit expectation of a target's
natural encoding — false for all primitives, true for sequences
(spec section 4.4). -/
def naturalConstructed : GoType → Bool
  | .seqOf _ => true
  | _ => false

/-- Modelled from the spec: `DecodeWithOptions`, the per-field tag-override
resolver, which is not part of the sources under `src/` (only its tests
are).  After parsing the override: with no override or no tag number the
natural-tag path runs; `implicit` replaces the expected `(class, tag)` and
keeps the type's natural constructed form; `explicit` (the default mode
when the decoder-wide implicit flag is off) requires a constructed wrapper
carrying the override's `(class, tag)` and then decodes one nested TLV from
the wrapper's content against the natural tag; mismatches fail with
`StructuralError` (spec sections 4.4, 6, 7). -/
def decodeWithOptions (implicitFlag : Bool) (fuel : Nat) (opts : String) (t : GoType) :
    DecM GoValue := fun s =>
  match parseOverride opts with
  | none => decodeField fuel t s
  | some ov =>
    match ov.tagNum with
    | none => decodeField fuel t s
    | some otag =>
      match decodeType s with
      | (.error e, s1) => (.error e, s1)
      | (.ok (cls, tag, constructed), s1) =>
        let mode := match ov.mode with
          | .modeUnspecified => if implicitFlag then TagMode.modeImplicit else .modeExplicit
          | m => m
        match mode with
        | .modeImplicit =>
          if cls = ov.cls ∧ tag = otag ∧ constructed = naturalConstructed t then
            if constructed then decodeConstructed (decodeField fuel) fuel t s1
            else decodePrimitive t s1
          else (.error (.structuralError "tag mismatch"), s1)
        | _ =>
          if cls = ov.cls ∧ tag = otag ∧ constructed = true then
            match decodeLength s1 with
            | (.error e, s2) => (.error e, s2)
            | (.ok (len, indefinite), s2) =>
              if indefinite then
                match decodeField fuel t s2 with
                | (.error e, s3) => (.error e, s3)
                | (.ok v, s3) =>
                  match readFull 2 s3 with
                  | (.error e, s4) => (.error e, s4)
                  | (.ok m, s4) =>
                    if m = [0x00, 0x00] then (.ok v, s4)
                    else (.error (.syntaxError "missing End-Of-Content"), s4)
              else
                match decodeContent len false s2 with
                | (.error e, s3) => (.error e, s3)
                | (.ok b, s3) =>
                  match decodeField fuel t b with
                  | (.ok v, _) => (.ok v, s3)
                  | (.error e, _) => (.error e, s3)
          else (.error (.structuralError "tag mismatch"), s1)

/-- C9: tag-override behaviour on the three claimed cases.  With
`"tag:1,implicit"` the input `0x81 0x01 0x00` decodes to `false`; with
`"tag:3,explicit"` the input `0xA3 0x03 0x01 0x01 0x00` (context tag 3
wrapping a universal BOOLEAN) decodes to `false` by unwrapping one TLV
layer; with `"tag:5"` (no class keyword, default rules, implicit flag off)
the input `0x85 0x01 0x00` fails. -/
theorem C9_tag_overrides :
    decodeWithOptions false 4 "tag:1,implicit" .bool [0x81, 0x01, 0x00] =
      (.ok (.boolV false), []) ∧
    decodeWithOptions false 4 "tag:3,explicit" .bool [0xA3, 0x03, 0x01, 0x01, 0x00] =
      (.ok (.boolV false), []) ∧
    decodeWithOptions false 4 "tag:5" .bool [0x85, 0x01, 0x00] =
      (.error (.structuralError "tag mismatch"), [0x01, 0x00]) :=
  ⟨rfl, rfl, rfl⟩
